import Mathlib

/-
Verification of the ws-worker-observable core: the Connection Manager
(class WebSocketClient in the worker module) and the Stream Bridge
(the listener inside useWebSocketClient).

The Connection Manager is embedded as a state machine: its connection map,
reconnect-intent map and pending reconnect timers form `ManagerState`, and
each worker-side occurrence (an API call arriving over the boundary, a
socket callback, a timer firing) is an `Event` handled by `step`.

The Stream Bridge listener is embedded as a function from an inbound frame
envelope to the externally visible outcome for the subscriber (reply sent,
value emitted, stream errored, or nothing).

JSON.parse / serialization are host-environment functions, not repository
code; they are modelled by an executable codec over a `Json` value type.
The model covers JSON with integer numerals, strings with backslash escapes
(\" \\ \/ \n \t \r \b \f; \u escapes are not modelled), arrays, objects and
insignificant whitespace; floating-point numerals are outside the model.
-/

namespace WsWorker

/-! ### JSON value model (host environment: JSON.parse and serialization) -/

inductive Json where
  | null
  | bool (truth : Bool)
  | num (val : Int)
  | str (text : String)
  | arr (items : List Json)
  | obj (entries : List (String × Json))
deriving Inhabited

/-- A JSON scalar: a value that JSON.parse returns as a JavaScript primitive.
the JavaScript `in` operator throws a TypeError exactly on these; parsed arrays
and objects are JavaScript objects, on which `in` evaluates normally. -/
def Json.isPrimitive : Json → Bool
  | .null => true
  | .bool _ => true
  | .num _ => true
  | .str _ => true
  | .arr _ => false
  | .obj _ => false

/-- Structured data: a JSON array or object (a JavaScript object after parse). -/
def Json.isStructured : Json → Bool
  | .arr _ => true
  | .obj _ => true
  | _ => false

def objHasKey (k : String) (fields : List (String × Json)) : Bool :=
  fields.any (fun f => f.1 = k)

/-! #### Serialization (the canonical wire form of a JSON value) -/

def digitChar : Nat → Char
  | 0 => '0' | 1 => '1' | 2 => '2' | 3 => '3' | 4 => '4'
  | 5 => '5' | 6 => '6' | 7 => '7' | 8 => '8' | 9 => '9'
  | _ => '*'

/-- Little-endian decimal digits of `n`, with explicit fuel (fuel `n` suffices). -/
def natDigitsRev : Nat → Nat → List Nat
  | 0, _ => []
  | fuel+1, n => if n = 0 then [] else n % 10 :: natDigitsRev fuel (n / 10)

def printNat (n : Nat) : List Char :=
  if n = 0 then ['0'] else ((natDigitsRev n n).map digitChar).reverse

def printInt : Int → List Char
  | .ofNat n => printNat n
  | .negSucc m => '-' :: printNat (m + 1)

def escapeChar (c : Char) : List Char :=
  if c = '"' then ['\\', '"']
  else if c = '\\' then ['\\', '\\']
  else [c]

def escapeStr : List Char → List Char
  | [] => []
  | c :: cs => escapeChar c ++ escapeStr cs

def printQuoted (l : List Char) : List Char := '"' :: (escapeStr l ++ ['"'])

mutual
def printJ : Json → List Char
  | .null => "null".data
  | .bool tf => (if tf then "true" else "false").data
  | .num i => printInt i
  | .str s => printQuoted s.data
  | .arr xs => '[' :: (printElemsJ xs ++ [']'])
  | .obj fs => '\x7b' :: (printFieldsJ fs ++ ['\x7d'])
def printElemsJ : List Json → List Char
  | [] => []
  | [x] => printJ x
  | x :: y :: xs => printJ x ++ ',' :: printElemsJ (y :: xs)
def printFieldsJ : List (String × Json) → List Char
  | [] => []
  | [(k, v)] => printQuoted k.data ++ ':' :: printJ v
  | (k, v) :: f :: fs => printQuoted k.data ++ ':' :: printJ v ++ ',' :: printFieldsJ (f :: fs)
end

def Json.stringify (v : Json) : String := String.mk (printJ v)

/-! #### Parsing (the model of JSON.parse) -/

def isWsChar (c : Char) : Bool := c = ' ' || c = '\t' || c = '\n' || c = '\r'

def dropWs (l : List Char) : List Char := l.dropWhile isWsChar

def charVal (c : Char) : Option Nat :=
  if c = '0' then some 0 else if c = '1' then some 1 else if c = '2' then some 2
  else if c = '3' then some 3 else if c = '4' then some 4 else if c = '5' then some 5
  else if c = '6' then some 6 else if c = '7' then some 7 else if c = '8' then some 8
  else if c = '9' then some 9 else none

def isDigitChar (c : Char) : Bool := (charVal c).isSome

def digitsToNat (ds : List Char) : Nat :=
  ds.foldl (fun a c => 10 * a + (charVal c).getD 0) 0

/-- Little-endian value of a digit list. -/
def leVal (L : List Nat) : Nat := L.foldr (fun d r => d + 10 * r) 0

def parseNatChars (l : List Char) : Option (Nat × List Char) :=
  let ds := l.takeWhile isDigitChar
  if ds.isEmpty then none else some (digitsToNat ds, l.dropWhile isDigitChar)

def parseNum (l : List Char) : Option (Json × List Char) :=
  match l with
  | [] => none
  | c :: rest =>
    if c = '-' then
      match parseNatChars rest with
      | some (n, r) => some (.num (-(n : Int)), r)
      | none => none
    else
      match parseNatChars (c :: rest) with
      | some (n, r) => some (.num (n : Int), r)
      | none => none

def unescChar (c : Char) : Option Char :=
  if c = '"' then some '"' else if c = '\\' then some '\\' else if c = '/' then some '/'
  else if c = 'n' then some '\n' else if c = 't' then some '\t' else if c = 'r' then some '\r'
  else if c = 'b' then some '\x08' else if c = 'f' then some '\x0c' else none

def parseStrBody : List Char → Option (List Char × List Char)
  | [] => none
  | c :: rest =>
    if c = '"' then some ([], rest)
    else if c = '\\' then
      match rest with
      | [] => none
      | e :: rest2 =>
        match unescChar e, parseStrBody rest2 with
        | some u, some (s, r) => some (u :: s, r)
        | _, _ => none
    else
      match parseStrBody rest with
      | some (s, r) => some (c :: s, r)
      | none => none

def expectChars : List Char → List Char → Option (List Char)
  | [], l => some l
  | e :: es, c :: l => if c = e then expectChars es l else none
  | _ :: _, [] => none

mutual
def parseVal : Nat → List Char → Option (Json × List Char)
  | 0, _ => none
  | n+1, l =>
    match dropWs l with
    | [] => none
    | c :: rest =>
      if c = 'n' then (expectChars ['u','l','l'] rest).map (fun r => (Json.null, r))
      else if c = 't' then (expectChars ['r','u','e'] rest).map (fun r => (Json.bool true, r))
      else if c = 'f' then (expectChars ['a','l','s','e'] rest).map (fun r => (Json.bool false, r))
      else if c = '"' then (parseStrBody rest).map (fun p => (Json.str (String.mk p.1), p.2))
      else if c = '[' then
        match dropWs rest with
        | ']' :: r => some (Json.arr [], r)
        | l2 =>
          match parseElems n l2 with
          | some (vs, r) => some (Json.arr vs, r)
          | none => none
      else if c = '\x7b' then
        match dropWs rest with
        | '\x7d' :: r => some (Json.obj [], r)
        | l2 =>
          match parseFields n l2 with
          | some (fs, r) => some (Json.obj fs, r)
          | none => none
      else if c = '-' || isDigitChar c then parseNum (c :: rest)
      else none
def parseElems : Nat → List Char → Option (List Json × List Char)
  | 0, _ => none
  | n+1, l =>
    match parseVal n l with
    | none => none
    | some (v, r) =>
      match dropWs r with
      | ',' :: r2 =>
        match parseElems n r2 with
        | some (vs, r3) => some (v :: vs, r3)
        | none => none
      | ']' :: r2 => some ([v], r2)
      | _ => none
def parseFields : Nat → List Char → Option (List (String × Json) × List Char)
  | 0, _ => none
  | n+1, l =>
    match dropWs l with
    | '"' :: rest =>
      match parseStrBody rest with
      | none => none
      | some (k, r) =>
        match dropWs r with
        | ':' :: r2 =>
          match parseVal n r2 with
          | none => none
          | some (v, r3) =>
            match dropWs r3 with
            | ',' :: r4 =>
              match parseFields n r4 with
              | some (fs, r5) => some ((String.mk k, v) :: fs, r5)
              | none => none
            | '\x7d' :: r4 => some ([(String.mk k, v)], r4)
            | _ => none
        | _ => none
    | _ => none
end

def Json.parse (s : String) : Option Json :=
  match parseVal (2 * s.data.length + 2) s.data with
  | some (v, r) => if dropWs r = [] then some v else none
  | none => none

/-- The input after a printed numeral must not continue with a digit
(in serialized JSON it continues with a separator or ends). -/
def SepOk (r : List Char) : Prop := ∀ c, r.head? = some c → isDigitChar c = false

/-- Whether a parsed payload carries an error-code field. -/
def jsonHasCode : Json → Bool
  | .obj fs => objHasKey "code" fs
  | _ => false

/-! ### Connection Manager

Embeds the `WebSocketClient` class exposed by the worker module: a map from
channel to socket, a per-channel reconnect-intent map (`shouldReconnect`), a
fixed `reconnectInterval` of 5000 ms, and the handlers `connect` registers
(`onmessage` posts the raw frame, `onclose`/`onerror` delete the connection
and call `reconnect`). Sockets are identified by a fresh numeric id drawn
from a counter; the host WebSocket readyState is carried on each socket
(CONNECTING at construction, OPEN once the handshake completes). -/

inductive ReadyState where
  | CONNECTING
  | OPEN
  | CLOSED
deriving Repr, DecidableEq

structure Socket where
  sid : Nat
  url : String
  readyState : ReadyState
deriving Repr, DecidableEq

/-- A pending `setTimeout` callback scheduled by `reconnect`: it will invoke
`connect channel url` after `delayMs` milliseconds. -/
structure RetryTimer where
  channel : String
  url : String
  delayMs : Nat
deriving Repr, DecidableEq

structure ManagerState where
  connections : List (String × Socket)
  shouldReconnect : List (String × Bool)
  timers : List RetryTimer
  nextSid : Nat
deriving Repr, DecidableEq

/-- Externally visible actions of the Connection Manager. -/
inductive Effect where
  | warned (msg : String)
  | errorLogged (msg : String)
  | logged (msg : String)
  | posted (channel : String) (data : String)
  | wsSent (sid : Nat) (msg : String)
deriving Repr, DecidableEq

def lookupKey {α : Type} (k : String) (l : List (String × α)) : Option α :=
  (l.find? (fun p => p.1 = k)).map Prod.snd

def setKey {α : Type} (k : String) (v : α) : List (String × α) → List (String × α)
  | [] => [(k, v)]
  | (k2, v2) :: rest => if k2 = k then (k, v) :: rest else (k2, v2) :: setKey k v rest

def eraseKey {α : Type} (k : String) : List (String × α) → List (String × α)
  | [] => []
  | (k2, v2) :: rest => if k2 = k then rest else (k2, v2) :: eraseKey k rest

def reconnectInterval : Nat := 5000

/-- `connect(channel, url)`: duplicate connect warns and returns; otherwise a
new socket is created with its handlers, stored, and reconnect-intent is set. -/
def connect (channel url : String) (s : ManagerState) : ManagerState × List Effect :=
  if (lookupKey channel s.connections).isSome then
    (s, [.warned ("Already connected to channel: " ++ channel)])
  else
    let ws : Socket := ⟨s.nextSid, url, .CONNECTING⟩
    ({ s with
        connections := setKey channel ws s.connections,
        shouldReconnect := setKey channel true s.shouldReconnect,
        nextSid := s.nextSid + 1 }, [])

/-- `reconnect(channel, url)`: checks reconnect-intent at schedule time; when
set, schedules a `setTimeout` for `reconnectInterval` ms whose callback logs
and re-invokes `connect` unconditionally. -/
def reconnect (channel url : String) (s : ManagerState) : ManagerState :=
  if lookupKey channel s.shouldReconnect = some true then
    { s with timers := s.timers ++ [⟨channel, url, reconnectInterval⟩] }
  else s

/-- `disconnect(channel)`: when a connection is present, clears reconnect
intent, closes the socket and removes the entry; otherwise a silent no-op. -/
def disconnect (channel : String) (s : ManagerState) : ManagerState :=
  match lookupKey channel s.connections with
  | some _ =>
    { s with
        shouldReconnect := setKey channel false s.shouldReconnect,
        connections := eraseKey channel s.connections }
  | none => s

/-- `send(channel, message)`: transmits on an open socket, otherwise logs an
error and drops the message. -/
def send (channel message : String) (s : ManagerState) : ManagerState × List Effect :=
  match lookupKey channel s.connections with
  | some ws =>
    if ws.readyState = .OPEN then (s, [.wsSent ws.sid message])
    else (s, [.errorLogged ("No open connection for channel: " ++ channel)])
  | none => (s, [.errorLogged ("No open connection for channel: " ++ channel)])

/-- The shared body of the `onclose` and `onerror` handlers registered by
`connect`: delete the connection, then `reconnect` with the captured
channel and url. -/
def handleClose (channel url : String) (s : ManagerState) : ManagerState :=
  reconnect channel url { s with connections := eraseKey channel s.connections }

/-- One worker-side occurrence: an API call crossing the context boundary, a
socket callback (with the channel/url captured by the closure that `connect`
installed), or a scheduled reconnect timer firing. -/
inductive Event where
  | connectReq (channel url : String)
  | disconnectReq (channel : String)
  | sendReq (channel message : String)
  | socketOpen (channel : String)
  | socketMessage (channel data : String)
  | socketClosed (channel url : String)
  | socketError (channel url : String)
  | timerFire
deriving Repr, DecidableEq

def step (s : ManagerState) (e : Event) : ManagerState × List Effect :=
  match e with
  | .connectReq c u => connect c u s
  | .disconnectReq c => (disconnect c s, [])
  | .sendReq c m => send c m s
  | .socketOpen c =>
    (match lookupKey c s.connections with
     | some ws => { s with connections := setKey c { ws with readyState := .OPEN } s.connections }
     | none => s, [])
  | .socketMessage c d => (s, [.posted c d])
  | .socketClosed c u => (handleClose c u s, [])
  | .socketError c u => (handleClose c u s, [])
  | .timerFire =>
    match s.timers with
    | [] => (s, [])
    | t :: rest =>
      let r := connect t.channel t.url { s with timers := rest }
      (r.1, .logged ("Reconnecting to channel: " ++ t.channel) :: r.2)

def run (s : ManagerState) : List Event → ManagerState × List Effect
  | [] => (s, [])
  | e :: es =>
    let r := step s e
    let r2 := run r.1 es
    (r2.1, r.2 ++ r2.2)

def managerInit : ManagerState := ⟨[], [], [], 0⟩

/-- Number of connection entries stored for channel `k`. -/
def countKey {α : Type} (k : String) (l : List (String × α)) : Nat :=
  (l.filter (fun p => p.1 = k)).length

/-- One full retry round for a channel whose server keeps closing the socket:
the close event fires, then the scheduled reconnect timer fires. -/
def retryCycle (c u : String) (s : ManagerState) : ManagerState :=
  (run s [.socketClosed c u, .timerFire]).1

/-- Manager state after `connect c u` on a fresh manager followed by `n`
complete retry rounds. -/
def cycleStateN (c u : String) (n : Nat) : ManagerState :=
  (retryCycle c u)^[n] (connect c u managerInit).1

/-! ### Stream Bridge

Embeds the listener that `useWebSocketClient` registers on the worker for a
subscription to `channel`: frames for another channel are ignored; a
`"ping frame"` payload is answered with `send(channel, "pong frame")` and
nothing is emitted; otherwise the payload is JSON.parsed, an error envelope
(`"code" in pData && "error" in pData`) terminates the stream with the
`error` field, any other parsed value is emitted, and any exception of the
try block (SyntaxError from JSON.parse, TypeError from `in` applied to a
primitive) is caught and terminates the stream with a
"Failed to process message" error. -/

structure Envelope where
  channel : String
  data : String

/-- The JavaScript exceptions the try block of the listener can raise. -/
inductive JsErr where
  | parseFail
  | inOpFail
deriving Repr, DecidableEq

/-- Modelled message text of the two exceptions (what the template literal
interpolates for `${error}`). -/
def jsErrText : JsErr → String
  | .parseFail => "SyntaxError: unexpected token in JSON"
  | .inOpFail => "TypeError: cannot use the in operator on a non-object"

/-- Whether `k in x` holds for a parsed JSON array of length `len`: own
properties are the element indices and `length`. (The prototype chain also
answers `in`, but its standard properties do not include the keys the
listener tests, `code` and `error`.) -/
def arrHasProp (k : String) (len : Nat) : Bool :=
  k = "length" || (List.range len).any (fun i => String.mk (printNat i) = k)

/-- The JavaScript expression `k in pData`: evaluates on parsed objects and
arrays, throws a TypeError on primitives. -/
def hasPropExc (k : String) : Json → Except JsErr Bool
  | .obj fields => .ok (objHasKey k fields)
  | .arr elems => .ok (arrHasProp k elems.length)
  | _ => .error .inOpFail

/-- The JavaScript property access `pData.k` (only reached on objects here).
Duplicate keys in one object literal (where JSON.parse keeps the last
binding) are not modelled; lookup returns the first binding. -/
def getPropJ (k : String) : Json → Json
  | .obj fields => ((fields.find? (fun f => f.1 = k)).map Prod.snd).getD .null
  | _ => .null

inductive BridgeAct where
  | pong
  | nextVal (v : Json)
  | upstreamErr (e : Json)

/-- The try block of the listener body, for a frame that passed the channel
filter: either a normal action or the JavaScript exception it raises. -/
def listenBody (data : String) : Except JsErr BridgeAct :=
  if data = "ping frame" then .ok .pong
  else
    match Json.parse data with
    | none => .error .parseFail
    | some pData =>
      match hasPropExc "code" pData with
      | .error e => .error e
      | .ok hasCode =>
        if hasCode then
          match hasPropExc "error" pData with
          | .error e => .error e
          | .ok hasErr =>
            if hasErr then .ok (.upstreamErr (getPropJ "error" pData))
            else .ok (.nextVal pData)
        else .ok (.nextVal pData)

/-- A terminal stream error, as handed to `subscriber.error`. -/
inductive StreamErr where
  | upstream (v : Json)
  | processFailed (msg : String)

/-- What one inbound frame envelope makes the subscription do. -/
inductive FrameOutcome where
  | skipped
  | pongSent
  | emitted (v : Json)
  | errored (e : StreamErr)

def processMsg (e : JsErr) : String := "Failed to process message: " ++ jsErrText e

/-- The full listener for a subscription to `subChannel`, applied to one
inbound frame envelope. -/
def listener (subChannel : String) (env : Envelope) : FrameOutcome :=
  if env.channel = subChannel then
    match listenBody env.data with
    | .ok .pong => .pongSent
    | .ok (.nextVal v) => .emitted v
    | .ok (.upstreamErr e) => .errored (.upstream e)
    | .error e => .errored (.processFailed (processMsg e))
  else .skipped

/-- Manager send calls the listener issues for one frame. -/
def outcomeSends (subChannel : String) : FrameOutcome → List (String × String)
  | .pongSent => [(subChannel, "pong frame")]
  | _ => []

/-- Values emitted to the subscriber for one frame. -/
def outcomeEmits : FrameOutcome → List Json
  | .emitted v => [v]
  | _ => []

/-- A subscription processing a sequence of inbound envelopes: after
`subscriber.error` the rxjs subscription is torn down (the teardown removes
the listener and the subscriber is closed), so no later envelope is
processed. -/
def runStream (subChannel : String) : List Envelope → List FrameOutcome
  | [] => []
  | env :: rest =>
    match listener subChannel env with
    | .errored e => [.errored e]
    | o => o :: runStream subChannel rest

/-! ### Association-list lemmas -/

/-- The keys of an association list, each at most once: the JavaScript Map
invariant modelled by the manager fields `connections`/`shouldReconnect`. -/
def KeysNodup {α : Type} (l : List (String × α)) : Prop := (l.map Prod.fst).Nodup

theorem mem_map_fst_setKey {α : Type} (k a : String) (v : α) (l : List (String × α)) :
    a ∈ (setKey k v l).map Prod.fst ↔ a = k ∨ a ∈ l.map Prod.fst := by
  induction l with
  | nil => simp [setKey]
  | cons p rest ih =>
    obtain ⟨k2, v2⟩ := p
    by_cases hk : k2 = k
    · subst hk
      simp [setKey]
    · simp only [setKey, if_neg hk, List.map_cons, List.mem_cons, ih]
      tauto

theorem keysNodup_setKey {α : Type} (k : String) (v : α) (l : List (String × α))
    (h : KeysNodup l) : KeysNodup (setKey k v l) := by
  induction l with
  | nil => simp [KeysNodup, setKey]
  | cons p rest ih =>
    obtain ⟨k2, v2⟩ := p
    simp only [KeysNodup, List.map_cons, List.nodup_cons] at h
    by_cases hk : k2 = k
    · subst hk
      simpa [KeysNodup, setKey] using h
    · have h2 := ih h.2
      simp only [KeysNodup, setKey, if_neg hk, List.map_cons, List.nodup_cons]
      refine ⟨?_, h2⟩
      rw [mem_map_fst_setKey]
      rintro (rfl | hmem)
      · exact hk rfl
      · exact h.1 hmem

theorem mem_map_fst_eraseKey {α : Type} (k a : String) (l : List (String × α)) :
    a ∈ (eraseKey k l).map Prod.fst → a ∈ l.map Prod.fst := by
  induction l with
  | nil => simp [eraseKey]
  | cons p rest ih =>
    obtain ⟨k2, v2⟩ := p
    by_cases hk : k2 = k
    · subst hk
      simp only [eraseKey, if_pos rfl, List.map_cons, List.mem_cons]
      tauto
    · simp only [eraseKey, if_neg hk, List.map_cons, List.mem_cons]
      rintro (rfl | hmem)
      · exact Or.inl rfl
      · exact Or.inr (ih hmem)

theorem keysNodup_eraseKey {α : Type} (k : String) (l : List (String × α))
    (h : KeysNodup l) : KeysNodup (eraseKey k l) := by
  induction l with
  | nil => simp [KeysNodup, eraseKey]
  | cons p rest ih =>
    obtain ⟨k2, v2⟩ := p
    simp only [KeysNodup, List.map_cons, List.nodup_cons] at h
    by_cases hk : k2 = k
    · simpa [KeysNodup, eraseKey, if_pos hk] using h.2
    · simp only [KeysNodup, eraseKey, if_neg hk, List.map_cons, List.nodup_cons]
      exact ⟨fun hmem => h.1 (mem_map_fst_eraseKey k k2 rest hmem), ih h.2⟩

theorem countKey_le_one_of_nodup {α : Type} (c : String) (l : List (String × α))
    (h : KeysNodup l) : countKey c l ≤ 1 := by
  induction l with
  | nil => simp [countKey]
  | cons p rest ih =>
    obtain ⟨k2, v2⟩ := p
    simp only [KeysNodup, List.map_cons, List.nodup_cons] at h
    by_cases hk : k2 = c
    · subst hk
      have hrest : rest.filter (fun p => p.1 = k2) = [] := by
        rw [List.filter_eq_nil_iff]
        intro a ha
        simp only [decide_eq_true_eq]
        intro hak
        exact h.1 (List.mem_map.mpr ⟨a, ha, hak⟩)
      simp [countKey, List.filter_cons, hrest]
    · have := ih h.2
      simpa [countKey, List.filter_cons, hk] using this

/-! ### Manager invariant lemmas -/

theorem reconnect_connections (c u : String) (s : ManagerState) :
    (reconnect c u s).connections = s.connections := by
  unfold reconnect
  split <;> rfl

theorem step_keysNodup (s : ManagerState) (e : Event)
    (h : KeysNodup s.connections) : KeysNodup (step s e).1.connections := by
  cases e with
  | connectReq c u =>
    simp only [step, connect]
    split
    · exact h
    · exact keysNodup_setKey c _ _ h
  | disconnectReq c =>
    simp only [step, disconnect]
    split
    · exact keysNodup_eraseKey c _ h
    · exact h
  | sendReq c m =>
    simp only [step, send]
    split
    · split <;> exact h
    · exact h
  | socketOpen c =>
    simp only [step]
    split
    · exact keysNodup_setKey c _ _ h
    · exact h
  | socketMessage c d => exact h
  | socketClosed c u =>
    simp only [step, handleClose, reconnect_connections]
    exact keysNodup_eraseKey c _ h
  | socketError c u =>
    simp only [step, handleClose, reconnect_connections]
    exact keysNodup_eraseKey c _ h
  | timerFire =>
    simp only [step]
    split
    · exact h
    · simp only [connect]
      split
      · exact h
      · exact keysNodup_setKey _ _ _ h

theorem run_keysNodup (evs : List Event) (s : ManagerState)
    (h : KeysNodup s.connections) : KeysNodup (run s evs).1.connections := by
  induction evs generalizing s with
  | nil => exact h
  | cons e es ih => exact ih (step s e).1 (step_keysNodup s e h)

/-! ### Retry-cycle lemma for the unbounded reconnect loop -/

theorem cycleStateN_eq (c u : String) (n : Nat) :
    cycleStateN c u n =
      ⟨[(c, ⟨n, u, .CONNECTING⟩)], [(c, true)], [], n + 1⟩ := by
  induction n with
  | zero => rfl
  | succ n ih =>
    rw [cycleStateN, Function.iterate_succ_apply', ← cycleStateN, ih]
    simp [retryCycle, run, step, handleClose, reconnect, connect, lookupKey,
      eraseKey, setKey, reconnectInterval]

/-! ### Claim theorems: Connection Manager -/

/-- Claim C1. For every channel whose reconnect-intent is true, when its
socket closes or errors the Connection Manager removes the connection from
the mapping and schedules a reconnection attempt after a fixed 5000 ms delay
by re-invoking `connect` with the same channel and url; no maximum attempt
count bounds the retries (after any number `n` of complete retry rounds the
channel holds a live connection again, and the next close still schedules a
fresh 5000 ms retry). -/
theorem claim1_close_schedules_unbounded_reconnect (s : ManagerState) (c u : String)
    (h : lookupKey c s.shouldReconnect = some true) :
    step s (.socketClosed c u) =
      ({ s with connections := eraseKey c s.connections,
                timers := s.timers ++ [⟨c, u, reconnectInterval⟩] }, []) ∧
    step s (.socketError c u) = step s (.socketClosed c u) ∧
    reconnectInterval = 5000 ∧
    (∀ s2 t ts, s2.timers = t :: ts →
      step s2 .timerFire =
        ((connect t.channel t.url { s2 with timers := ts }).1,
         .logged ("Reconnecting to channel: " ++ t.channel) ::
           (connect t.channel t.url { s2 with timers := ts }).2)) ∧
    (∀ n, cycleStateN c u n =
      ⟨[(c, ⟨n, u, .CONNECTING⟩)], [(c, true)], [], n + 1⟩) ∧
    (∀ n, (step (cycleStateN c u n) (.socketClosed c u)).1.timers =
      [⟨c, u, reconnectInterval⟩]) := by
  refine ⟨?_, rfl, rfl, ?_, cycleStateN_eq c u, ?_⟩
  · simp only [step, handleClose, reconnect]
    rw [if_pos h]
  · intro s2 t ts ht
    simp only [step, ht]
  · intro n
    rw [cycleStateN_eq c u n]
    simp [step, handleClose, reconnect, lookupKey, eraseKey]

/-- Witness for C1 at channel "trade": a state whose reconnect-intent is set
loses its connection and gains exactly the 5000 ms retry timer on close, and
after 2 complete retry rounds the channel is connected again. -/
theorem claim1_witness :
    step ⟨[("trade", ⟨0, "wss://x", .OPEN⟩)], [("trade", true)], [], 1⟩
        (.socketClosed "trade" "wss://x") =
      (⟨[], [("trade", true)], [⟨"trade", "wss://x", 5000⟩], 1⟩, []) ∧
    cycleStateN "trade" "wss://x" 2 =
      ⟨[("trade", ⟨2, "wss://x", .CONNECTING⟩)], [("trade", true)], [], 3⟩ := by
  have h := claim1_close_schedules_unbounded_reconnect
    ⟨[("trade", ⟨0, "wss://x", .OPEN⟩)], [("trade", true)], [], 1⟩ "trade" "wss://x" rfl
  exact ⟨h.1, h.2.2.2.2.1 2⟩

/-- Claim C2 (code bug). The claim says that after an explicit
`disconnect(channel)` no reconnection attempt for that channel ever occurs
again, because a scheduled retry timer re-checks reconnect-intent when it
fires. The code checks the flag in `reconnect` at schedule time and the
timer callback invokes `connect` unconditionally, so a retry scheduled
before the disconnect still reconnects: after connect, close (retry
scheduled), connect again, explicit disconnect (intent cleared, socket
closed), the pending timer fires and re-establishes a live connection. -/
theorem claim2_scheduled_retry_survives_disconnect :
    (run managerInit
      [.connectReq "trade" "wss://x", .socketClosed "trade" "wss://x",
       .connectReq "trade" "wss://x", .disconnectReq "trade",
       .socketClosed "trade" "wss://x"]).1 =
      ⟨[], [("trade", false)], [⟨"trade", "wss://x", 5000⟩], 2⟩ ∧
    (run managerInit
      [.connectReq "trade" "wss://x", .socketClosed "trade" "wss://x",
       .connectReq "trade" "wss://x", .disconnectReq "trade",
       .socketClosed "trade" "wss://x", .timerFire]).1 =
      ⟨[("trade", ⟨2, "wss://x", .CONNECTING⟩)], [("trade", true)], [], 3⟩ ∧
    (run managerInit
      [.connectReq "trade" "wss://x", .socketClosed "trade" "wss://x",
       .connectReq "trade" "wss://x", .disconnectReq "trade",
       .socketClosed "trade" "wss://x", .timerFire]).2 =
      [.logged "Reconnecting to channel: trade"] :=
  ⟨rfl, rfl, rfl⟩

/-- Claim C3. At most one live connection exists per channel at any reachable
manager state, and a `connect` call for an already-connected channel logs a
warning and returns without modifying any state (neither the socket map nor
the reconnect-intent map). -/
theorem claim3_duplicate_connect_noop (s : ManagerState) (c u : String)
    (h : (lookupKey c s.connections).isSome) :
    connect c u s = (s, [.warned ("Already connected to channel: " ++ c)]) ∧
    (∀ evs c2, countKey c2 (run managerInit evs).1.connections ≤ 1) := by
  constructor
  · simp only [connect, if_pos h]
  · intro evs c2
    exact countKey_le_one_of_nodup c2 _
      (run_keysNodup evs managerInit (by simp [managerInit, KeysNodup]))

/-- Witness for C3: a duplicate connect on a connected state returns the
state unchanged with only a warning, and a trace with two connects to
"trade" and one to "book" keeps at most one "trade" connection. -/
theorem claim3_witness :
    connect "trade" "wss://y" ⟨[("trade", ⟨0, "wss://x", .OPEN⟩)], [("trade", true)], [], 1⟩ =
      (⟨[("trade", ⟨0, "wss://x", .OPEN⟩)], [("trade", true)], [], 1⟩,
       [.warned "Already connected to channel: trade"]) ∧
    countKey "trade"
      (run managerInit
        [.connectReq "trade" "wss://x", .connectReq "trade" "wss://y",
         .connectReq "book" "wss://z"]).1.connections ≤ 1 := by
  have h := claim3_duplicate_connect_noop
    ⟨[("trade", ⟨0, "wss://x", .OPEN⟩)], [("trade", true)], [], 1⟩ "trade" "wss://y" rfl
  exact ⟨h.1,
    h.2 [.connectReq "trade" "wss://x", .connectReq "trade" "wss://y",
         .connectReq "book" "wss://z"] "trade"⟩

/-- Claim C8. `send(channel, message)` never changes manager state; with a
connection in the open-ready state it transmits the message verbatim on that
socket; with no connection, or one not open, it logs an error and drops the
message (no transmit effect, nothing queued, nothing raised). -/
theorem claim8_send_verbatim_or_dropped (s : ManagerState) (c m : String) :
    (send c m s).1 = s ∧
    (∀ ws, lookupKey c s.connections = some ws → ws.readyState = .OPEN →
      (send c m s).2 = [.wsSent ws.sid m]) ∧
    (∀ ws, lookupKey c s.connections = some ws → ws.readyState ≠ .OPEN →
      (send c m s).2 = [.errorLogged ("No open connection for channel: " ++ c)]) ∧
    (lookupKey c s.connections = none →
      (send c m s).2 = [.errorLogged ("No open connection for channel: " ++ c)]) := by
  refine ⟨?_, ?_, ?_, ?_⟩
  · simp only [send]
    split
    · split <;> rfl
    · rfl
  · intro ws hws hopen
    simp only [send, hws, hopen, if_pos]
  · intro ws hws hopen
    simp only [send, hws]
    rw [if_neg hopen]
  · intro hnone
    simp only [send, hnone]

/-- Witness for C8: on an open "trade" socket the message text is transmitted
unchanged; on a fresh manager it is dropped with an error log. -/
theorem claim8_witness :
    (send "trade" "hello ws"
      ⟨[("trade", ⟨7, "wss://x", .OPEN⟩)], [("trade", true)], [], 8⟩).2 =
      [.wsSent 7 "hello ws"] ∧
    (send "trade" "hello ws" managerInit).2 =
      [.errorLogged "No open connection for channel: trade"] :=
  ⟨(claim8_send_verbatim_or_dropped
      ⟨[("trade", ⟨7, "wss://x", .OPEN⟩)], [("trade", true)], [], 8⟩ "trade" "hello ws").2.1
      ⟨7, "wss://x", .OPEN⟩ rfl rfl,
   (claim8_send_verbatim_or_dropped managerInit "trade" "hello ws").2.2.2 rfl⟩

/-! ### Decimal numeral lemmas -/

theorem charVal_digitChar (d : Nat) (h : d < 10) : charVal (digitChar d) = some d := by
  interval_cases d <;> rfl

theorem isDigitChar_digitChar (d : Nat) (h : d < 10) : isDigitChar (digitChar d) = true := by
  simp [isDigitChar, charVal_digitChar d h]

theorem isDigitChar_cases (c : Char) (h : isDigitChar c = true) :
    c = '0' ∨ c = '1' ∨ c = '2' ∨ c = '3' ∨ c = '4' ∨
    c = '5' ∨ c = '6' ∨ c = '7' ∨ c = '8' ∨ c = '9' := by
  unfold isDigitChar charVal at h
  split_ifs at h with h0 h1 h2 h3 h4 h5 h6 h7 h8 h9
  · exact Or.inl h0
  · exact Or.inr (Or.inl h1)
  · exact Or.inr (Or.inr (Or.inl h2))
  · exact Or.inr (Or.inr (Or.inr (Or.inl h3)))
  · exact Or.inr (Or.inr (Or.inr (Or.inr (Or.inl h4))))
  · exact Or.inr (Or.inr (Or.inr (Or.inr (Or.inr (Or.inl h5)))))
  · exact Or.inr (Or.inr (Or.inr (Or.inr (Or.inr (Or.inr (Or.inl h6))))))
  · exact Or.inr (Or.inr (Or.inr (Or.inr (Or.inr (Or.inr (Or.inr (Or.inl h7)))))))
  · exact Or.inr (Or.inr (Or.inr (Or.inr (Or.inr (Or.inr (Or.inr (Or.inr (Or.inl h8))))))))
  · exact Or.inr (Or.inr (Or.inr (Or.inr (Or.inr (Or.inr (Or.inr (Or.inr (Or.inr h9))))))))
  · simp at h

theorem natDigitsRev_lt10 (fuel n d : Nat) (h : d ∈ natDigitsRev fuel n) : d < 10 := by
  induction fuel generalizing n with
  | zero => simp [natDigitsRev] at h
  | succ fuel ih =>
    unfold natDigitsRev at h
    split at h
    · simp at h
    · rcases List.mem_cons.mp h with rfl | h2
      · omega
      · exact ih _ h2

theorem leVal_natDigitsRev (fuel n : Nat) (h : n ≤ fuel) :
    leVal (natDigitsRev fuel n) = n := by
  induction fuel generalizing n with
  | zero =>
    have : n = 0 := by omega
    simp [this, natDigitsRev, leVal]
  | succ fuel ih =>
    unfold natDigitsRev
    split
    · simp_all [leVal]
    · have hn : n ≠ 0 := by assumption
      have hdiv : n / 10 ≤ fuel := by omega
      simp only [leVal, List.foldr_cons]
      have := ih (n / 10) hdiv
      unfold leVal at this
      rw [this]
      omega

theorem foldl_rev_map_digits (L : List Nat) :
    ∀ A : Nat, (∀ d ∈ L, d < 10) →
      ((L.map digitChar).reverse).foldl (fun a c => 10 * a + (charVal c).getD 0) A =
        A * 10 ^ L.length + leVal L := by
  induction L with
  | nil => intro A _; simp [leVal]
  | cons d L ih =>
    intro A h
    have hd : d < 10 := h d (by simp)
    have hL : ∀ e ∈ L, e < 10 := fun e he => h e (by simp [he])
    simp only [List.map_cons, List.reverse_cons, List.foldl_append, List.foldl_cons,
      List.foldl_nil]
    rw [ih A hL, charVal_digitChar d hd]
    simp only [Option.getD_some, leVal, List.foldr_cons, List.length_cons]
    ring

theorem digitsToNat_printNat (n : Nat) : digitsToNat (printNat n) = n := by
  by_cases hn : n = 0
  · subst hn; rfl
  · unfold printNat
    rw [if_neg hn]
    unfold digitsToNat
    rw [foldl_rev_map_digits _ 0 (fun d hd => natDigitsRev_lt10 n n d hd)]
    rw [leVal_natDigitsRev n n le_rfl]
    omega

theorem printNat_all_digits (n : Nat) (c : Char) (h : c ∈ printNat n) :
    isDigitChar c = true := by
  unfold printNat at h
  split at h
  · simp at h
    rw [h]; rfl
  · rw [List.mem_reverse] at h
    obtain ⟨d, hd, rfl⟩ := List.mem_map.mp h
    exact isDigitChar_digitChar d (natDigitsRev_lt10 n n d hd)

theorem printNat_ne_nil (n : Nat) : printNat n ≠ [] := by
  unfold printNat
  split
  · simp
  · have hn : n ≠ 0 := by assumption
    have : natDigitsRev n n ≠ [] := by
      obtain ⟨m, rfl⟩ : ∃ m, n = m + 1 := ⟨n - 1, by omega⟩
      unfold natDigitsRev
      simp [hn]
    simp [this]

theorem digit_not_special (c : Char) (h : isDigitChar c = true) :
    isWsChar c = false ∧ c ≠ 'n' ∧ c ≠ '"' ∧ c ≠ 't' ∧ c ≠ '[' ∧ c ≠ 'f' ∧
    c ≠ '\x7b' ∧ c ≠ '-' ∧ c ≠ ']' ∧ c ≠ ',' ∧ c ≠ '\x7d' := by
  rcases isDigitChar_cases c h with rfl | rfl | rfl | rfl | rfl | rfl | rfl | rfl | rfl | rfl <;>
    refine ⟨rfl, ?_, ?_, ?_, ?_, ?_, ?_, ?_, ?_, ?_, ?_⟩ <;> decide

/-! ### Numeral, string and whitespace parsing lemmas -/

theorem takeWhile_append_all {p : Char → Bool} (xs ys : List Char)
    (hxs : ∀ c ∈ xs, p c = true) (hys : ∀ c, ys.head? = some c → p c = false) :
    (xs ++ ys).takeWhile p = xs ∧ (xs ++ ys).dropWhile p = ys := by
  induction xs with
  | nil =>
    simp only [List.nil_append]
    cases ys with
    | nil => simp
    | cons c t =>
      have := hys c rfl
      simp [List.takeWhile_cons, List.dropWhile_cons, this]
  | cons x xs ih =>
    have hx : p x = true := hxs x (by simp)
    have hxs2 : ∀ c ∈ xs, p c = true := fun c hc => hxs c (by simp [hc])
    obtain ⟨h1, h2⟩ := ih hxs2
    simp [List.takeWhile_cons, List.dropWhile_cons, hx, h1, h2]

theorem parseNatChars_print (n : Nat) (r : List Char) (hr : SepOk r) :
    parseNatChars (printNat n ++ r) = some (n, r) := by
  obtain ⟨h1, h2⟩ := takeWhile_append_all (printNat n) r
    (printNat_all_digits n) hr
  unfold parseNatChars
  rw [h1, h2]
  simp [printNat_ne_nil n, List.isEmpty_iff, digitsToNat_printNat n]

theorem parseNum_print (i : Int) (r : List Char) (hr : SepOk r) :
    parseNum (printInt i ++ r) = some (.num i, r) := by
  cases i with
  | ofNat n =>
    show parseNum (printNat n ++ r) = some (.num (Int.ofNat n), r)
    obtain ⟨c, t, hct⟩ : ∃ c t, printNat n = c :: t := by
      cases h : printNat n with
      | nil => exact absurd h (printNat_ne_nil n)
      | cons c t => exact ⟨c, t, rfl⟩
    have hdig : isDigitChar c = true := printNat_all_digits n c (by rw [hct]; simp)
    have hcm : c ≠ '-' := (digit_not_special c hdig).2.2.2.2.2.2.2.1
    rw [hct, List.cons_append]
    simp only [parseNum]
    rw [if_neg hcm, ← List.cons_append, ← hct, parseNatChars_print n r hr]
    rfl
  | negSucc m =>
    show parseNum ('-' :: (printNat (m + 1) ++ r)) = some (.num (Int.negSucc m), r)
    simp only [parseNum]
    rw [if_pos trivial, parseNatChars_print (m + 1) r hr]
    simp [Int.negSucc_eq]

theorem parseStrBody_escape (l : List Char) :
    ∀ r, parseStrBody (escapeStr l ++ ('"' :: r)) = some (l, r) := by
  induction l with
  | nil =>
    intro r
    show parseStrBody ('"' :: r) = some ([], r)
    unfold parseStrBody
    rw [if_pos rfl]
  | cons c l ih =>
    intro r
    by_cases hq : c = '"'
    · subst hq
      have he : escapeStr ('"' :: l) = '\\' :: '"' :: escapeStr l := by
        simp [escapeStr, escapeChar]
      rw [he, List.cons_append, List.cons_append]
      unfold parseStrBody
      rw [if_neg (by decide), if_pos rfl]
      simp [unescChar, ih r]
    · by_cases hb : c = '\\'
      · subst hb
        have he : escapeStr ('\\' :: l) = '\\' :: '\\' :: escapeStr l := by
          simp [escapeStr, escapeChar]
        rw [he, List.cons_append, List.cons_append]
        unfold parseStrBody
        rw [if_neg (by decide), if_pos rfl]
        simp [unescChar, ih r]
      · have he : escapeStr (c :: l) = c :: escapeStr l := by
          simp [escapeStr, escapeChar, hq, hb]
        rw [he, List.cons_append]
        unfold parseStrBody
        rw [if_neg hq, if_neg hb, ih r]

theorem dropWs_cons (c : Char) (l : List Char) (h : isWsChar c = false) :
    dropWs (c :: l) = c :: l := by
  simp [dropWs, List.dropWhile_cons, h]

/-- Every serialized JSON value starts with a character that is not
whitespace, not a closing bracket or brace, and not a comma. -/
theorem printJ_head (v : Json) :
    ∃ c t, printJ v = c :: t ∧ isWsChar c = false ∧ c ≠ ']' ∧ c ≠ '\x7d' ∧ c ≠ ',' := by
  cases v with
  | null => refine ⟨'n', _, rfl, rfl, ?_, ?_, ?_⟩ <;> decide
  | bool b =>
    cases b with
    | true => refine ⟨'t', _, rfl, rfl, ?_, ?_, ?_⟩ <;> decide
    | false => refine ⟨'f', _, rfl, rfl, ?_, ?_, ?_⟩ <;> decide
  | str s => refine ⟨'"', _, rfl, rfl, ?_, ?_, ?_⟩ <;> decide
  | arr xs => refine ⟨'[', _, rfl, rfl, ?_, ?_, ?_⟩ <;> decide
  | obj fs => refine ⟨'\x7b', _, rfl, rfl, ?_, ?_, ?_⟩ <;> decide
  | num i =>
    cases i with
    | ofNat n =>
      obtain ⟨c, t, hct⟩ : ∃ c t, printNat n = c :: t := by
        cases h : printNat n with
        | nil => exact absurd h (printNat_ne_nil n)
        | cons c t => exact ⟨c, t, rfl⟩
      have hdig : isDigitChar c = true := printNat_all_digits n c (by rw [hct]; simp)
      have hs := digit_not_special c hdig
      exact ⟨c, t, hct, hs.1, hs.2.2.2.2.2.2.2.2.1, hs.2.2.2.2.2.2.2.2.2.2,
        hs.2.2.2.2.2.2.2.2.2.1⟩
    | negSucc m =>
      refine ⟨'-', _, rfl, rfl, ?_, ?_, ?_⟩ <;> decide

/-! ### Round trip of the JSON codec on serialized values -/

theorem string_eta (s : String) : String.mk s.data = s := by
  cases s
  rfl

theorem sepOk_nil : SepOk [] := by
  intro d hd
  simp at hd

theorem sepOk_cons (c : Char) (l : List Char) (h : isDigitChar c = false) :
    SepOk (c :: l) := by
  intro d hd
  simp only [List.head?_cons, Option.some.injEq] at hd
  rw [← hd]
  exact h

theorem printElemsJ_head (y : Json) (ys : List Json) :
    ∃ c t, printElemsJ (y :: ys) = c :: t ∧ isWsChar c = false ∧
      c ≠ ']' ∧ c ≠ '\x7d' ∧ c ≠ ',' := by
  obtain ⟨c, t, hct, h1, h2, h3, h4⟩ := printJ_head y
  cases ys with
  | nil => exact ⟨c, t, by simp [printElemsJ, hct], h1, h2, h3, h4⟩
  | cons z zs =>
    exact ⟨c, t ++ ',' :: printElemsJ (z :: zs),
      by simp [printElemsJ, hct], h1, h2, h3, h4⟩

theorem printFieldsJ_head (k : String) (v : Json) (fs : List (String × Json)) :
    ∃ t, printFieldsJ ((k, v) :: fs) = '"' :: t := by
  cases fs with
  | nil => exact ⟨_, rfl⟩
  | cons f fs => exact ⟨_, rfl⟩

theorem printJ_length_pos (v : Json) : 0 < (printJ v).length := by
  obtain ⟨c, t, hct, _⟩ := printJ_head v
  simp [hct]

theorem parseElems_print (xs : List Json) :
    xs ≠ [] →
    (∀ x ∈ xs, ∀ n r, (printJ x).length + 1 < n → SepOk r →
      parseVal n (printJ x ++ r) = some (x, r)) →
    ∀ n r, (printElemsJ xs).length + 2 < n →
      parseElems n (printElemsJ xs ++ ']' :: r) = some (xs, r) := by
  induction xs with
  | nil => intro h; exact absurd rfl h
  | cons x xs ih =>
    intro _ hIH n r hn
    obtain ⟨m, rfl⟩ : ∃ m, n = m + 1 := ⟨n - 1, by omega⟩
    cases xs with
    | nil =>
      have hb : (printJ x).length + 1 < m := by
        simp only [printElemsJ] at hn
        omega
      simp only [printElemsJ] at hn ⊢
      simp only [parseElems,
        hIH x (by simp) m (']' :: r) hb (sepOk_cons ']' r (by decide)),
        dropWs_cons ']' r (by decide)]
    | cons y ys =>
      have hx1 : 0 < (printJ x).length := printJ_length_pos x
      have hlen : (printElemsJ (x :: y :: ys)).length =
          (printJ x).length + 1 + (printElemsJ (y :: ys)).length := by
        simp [printElemsJ]
        omega
      have hb : (printJ x).length + 1 < m := by omega
      have hbt : (printElemsJ (y :: ys)).length + 2 < m := by omega
      have hrw : printElemsJ (x :: y :: ys) ++ ']' :: r =
          printJ x ++ (',' :: (printElemsJ (y :: ys) ++ ']' :: r)) := by
        simp [printElemsJ]
      rw [hrw]
      simp only [parseElems,
        hIH x (by simp) m _ hb (sepOk_cons ',' _ (by decide)),
        dropWs_cons ',' _ (by decide),
        ih (by simp) (fun z hz => hIH z (by simp [hz])) m r hbt]

theorem parseFields_print (fs : List (String × Json)) :
    fs ≠ [] →
    (∀ p ∈ fs, ∀ n r, (printJ p.2).length + 1 < n → SepOk r →
      parseVal n (printJ p.2 ++ r) = some (p.2, r)) →
    ∀ n r, (printFieldsJ fs).length + 2 < n →
      parseFields n (printFieldsJ fs ++ '\x7d' :: r) = some (fs, r) := by
  induction fs with
  | nil => intro h; exact absurd rfl h
  | cons f fs ih =>
    obtain ⟨k, v⟩ := f
    intro _ hIH n r hn
    obtain ⟨m, rfl⟩ : ∃ m, n = m + 1 := ⟨n - 1, by omega⟩
    cases fs with
    | nil =>
      have hlen : (printFieldsJ [(k, v)]).length =
          (escapeStr k.data).length + 3 + (printJ v).length := by
        simp [printFieldsJ, printQuoted]
        omega
      have hb : (printJ v).length + 1 < m := by omega
      have hrw : printFieldsJ [(k, v)] ++ '\x7d' :: r =
          '"' :: (escapeStr k.data ++ ('"' :: (':' :: (printJ v ++ '\x7d' :: r)))) := by
        simp [printFieldsJ, printQuoted]
      rw [hrw]
      simp only [parseFields, dropWs_cons '"' _ (by decide),
        parseStrBody_escape k.data _,
        dropWs_cons ':' _ (by decide),
        hIH (k, v) (by simp) m _ hb (sepOk_cons '\x7d' _ (by decide)),
        dropWs_cons '\x7d' _ (by decide), string_eta]
    | cons f2 fs2 =>
      obtain ⟨k2, v2⟩ := f2
      have hlen : (printFieldsJ ((k, v) :: (k2, v2) :: fs2)).length =
          (escapeStr k.data).length + 3 + (printJ v).length + 1 +
            (printFieldsJ ((k2, v2) :: fs2)).length := by
        simp [printFieldsJ, printQuoted]
        omega
      have hb : (printJ v).length + 1 < m := by omega
      have hbt : (printFieldsJ ((k2, v2) :: fs2)).length + 2 < m := by omega
      have hrw : printFieldsJ ((k, v) :: (k2, v2) :: fs2) ++ '\x7d' :: r =
          '"' :: (escapeStr k.data ++ ('"' :: (':' :: (printJ v ++
            (',' :: (printFieldsJ ((k2, v2) :: fs2) ++ '\x7d' :: r)))))) := by
        simp [printFieldsJ, printQuoted]
      rw [hrw]
      simp only [parseFields, dropWs_cons '"' _ (by decide),
        parseStrBody_escape k.data _,
        dropWs_cons ':' _ (by decide),
        hIH (k, v) (by simp) m _ hb (sepOk_cons ',' _ (by decide)),
        dropWs_cons ',' _ (by decide),
        ih (by simp) (fun p hp => hIH p (by simp [hp])) m r hbt,
        string_eta]

theorem printInt_head (i : Int) :
    ∃ c t, printInt i = c :: t ∧ (c = '-' ∨ isDigitChar c = true) := by
  cases i with
  | ofNat n =>
    obtain ⟨c, t, hct⟩ : ∃ c t, printNat n = c :: t := by
      cases h : printNat n with
      | nil => exact absurd h (printNat_ne_nil n)
      | cons c t => exact ⟨c, t, rfl⟩
    exact ⟨c, t, hct, Or.inr (printNat_all_digits n c (by rw [hct]; simp))⟩
  | negSucc m => exact ⟨'-', _, rfl, Or.inl rfl⟩

theorem parseVal_num_branch (m : Nat) (c : Char) (l : List Char)
    (h1 : c ≠ 'n') (h2 : c ≠ 't') (h3 : c ≠ 'f') (h4 : c ≠ '"') (h5 : c ≠ '[')
    (h6 : c ≠ '\x7b') (hws : isWsChar c = false)
    (hd : c = '-' ∨ isDigitChar c = true) :
    parseVal (m + 1) (c :: l) = parseNum (c :: l) := by
  simp only [parseVal, dropWs_cons c l hws]
  rw [if_neg h1, if_neg h2, if_neg h3, if_neg h4, if_neg h5, if_neg h6, if_pos]
  rcases hd with rfl | hd
  · simp
  · simp [hd]

theorem parseVal_print_aux (k : Nat) :
    ∀ v : Json, sizeOf v ≤ k → ∀ n r, (printJ v).length + 1 < n → SepOk r →
      parseVal n (printJ v ++ r) = some (v, r) := by
  induction k using Nat.strong_induction_on with
  | _ k IH =>
    intro v hk n r hn hr
    obtain ⟨m, rfl⟩ : ∃ m, n = m + 1 := ⟨n - 1, by omega⟩
    cases v with
    | null =>
      show parseVal (m + 1) ('n' :: 'u' :: 'l' :: 'l' :: r) = some (.null, r)
      rfl
    | bool b =>
      cases b with
      | true =>
        show parseVal (m + 1) ('t' :: 'r' :: 'u' :: 'e' :: r) = some (.bool true, r)
        rfl
      | false =>
        show parseVal (m + 1) ('f' :: 'a' :: 'l' :: 's' :: 'e' :: r) = some (.bool false, r)
        rfl
    | num i =>
      obtain ⟨c, t, hct, hc⟩ := printInt_head i
      have hpn := parseNum_print i r hr
      show parseVal (m + 1) (printInt i ++ r) = some (.num i, r)
      have hfacts : isWsChar c = false ∧ c ≠ 'n' ∧ c ≠ '"' ∧ c ≠ 't' ∧ c ≠ '[' ∧
          c ≠ 'f' ∧ c ≠ '\x7b' := by
        rcases hc with rfl | hd
        · refine ⟨rfl, ?_, ?_, ?_, ?_, ?_, ?_⟩ <;> decide
        · have hs := digit_not_special c hd
          exact ⟨hs.1, hs.2.1, hs.2.2.1, hs.2.2.2.1, hs.2.2.2.2.1, hs.2.2.2.2.2.1,
            hs.2.2.2.2.2.2.1⟩
      rw [hct, List.cons_append,
        parseVal_num_branch m c (t ++ r) hfacts.2.1 hfacts.2.2.2.1 hfacts.2.2.2.2.2.1
          hfacts.2.2.1 hfacts.2.2.2.2.1 hfacts.2.2.2.2.2.2 hfacts.1 hc,
        ← List.cons_append, ← hct]
      exact hpn
    | str s =>
      show parseVal (m + 1) ('"' :: ((escapeStr s.data ++ ['"']) ++ r)) = some (.str s, r)
      have hred : parseVal (m + 1) ('"' :: ((escapeStr s.data ++ ['"']) ++ r)) =
          (parseStrBody ((escapeStr s.data ++ ['"']) ++ r)).map
            (fun p => (Json.str (String.mk p.1), p.2)) := rfl
      rw [hred, List.append_assoc, List.singleton_append, parseStrBody_escape s.data r]
      simp [string_eta]
    | arr xs =>
      cases xs with
      | nil =>
        show parseVal (m + 1) ('[' :: (']' :: r)) = some (.arr [], r)
        rfl
      | cons y ys =>
        obtain ⟨c, t, hct, hws, hbr, _, _⟩ := printElemsJ_head y ys
        have hlen : (printJ (Json.arr (y :: ys))).length =
            (printElemsJ (y :: ys)).length + 2 := by
          simp [printJ]
        have hbt : (printElemsJ (y :: ys)).length + 2 < m := by omega
        have hrw : printJ (Json.arr (y :: ys)) ++ r =
            '[' :: (printElemsJ (y :: ys) ++ ']' :: r) := by
          simp [printJ]
        rw [hrw, hct, List.cons_append]
        have hred : parseVal (m + 1) ('[' :: (c :: (t ++ ']' :: r))) =
            (match dropWs (c :: (t ++ ']' :: r)) with
              | ']' :: r2 => some (Json.arr [], r2)
              | l2 =>
                match parseElems m l2 with
                | some (vs, r2) => some (Json.arr vs, r2)
                | none => none) := rfl
        rw [hred, dropWs_cons c _ hws]
        split
        · rename_i r2 heq
          rw [List.cons.injEq] at heq
          exact absurd heq.1 hbr
        · rw [← List.cons_append, ← hct,
            parseElems_print (y :: ys) (by simp)
              (fun x hx => IH (sizeOf x)
                (by
                  have h1 := List.sizeOf_lt_of_mem hx
                  have h2 : sizeOf (Json.arr (y :: ys)) = 1 + sizeOf (y :: ys) := by simp
                  omega)
                x le_rfl) m r hbt]
    | obj fs =>
      cases fs with
      | nil =>
        show parseVal (m + 1) ('\x7b' :: ('\x7d' :: r)) = some (.obj [], r)
        rfl
      | cons f fs2 =>
        obtain ⟨k2, v2⟩ := f
        obtain ⟨t2, hpf⟩ := printFieldsJ_head k2 v2 fs2
        have hlen : (printJ (Json.obj ((k2, v2) :: fs2))).length =
            (printFieldsJ ((k2, v2) :: fs2)).length + 2 := by
          simp [printJ]
        have hbt : (printFieldsJ ((k2, v2) :: fs2)).length + 2 < m := by omega
        have hrw : printJ (Json.obj ((k2, v2) :: fs2)) ++ r =
            '\x7b' :: (printFieldsJ ((k2, v2) :: fs2) ++ '\x7d' :: r) := by
          simp [printJ]
        rw [hrw, hpf, List.cons_append]
        have hred : parseVal (m + 1) ('\x7b' :: ('"' :: (t2 ++ '\x7d' :: r))) =
            (match parseFields m ('"' :: (t2 ++ '\x7d' :: r)) with
              | some (gs, r2) => some (Json.obj gs, r2)
              | none => none) := rfl
        rw [hred, ← List.cons_append, ← hpf,
          parseFields_print ((k2, v2) :: fs2) (by simp)
            (fun p hp => IH (sizeOf p.2)
              (by
                have h1 := List.sizeOf_lt_of_mem hp
                have h2 : sizeOf p.2 < sizeOf p := by
                  obtain ⟨a, b⟩ := p
                  simp
                  try omega
                have h3 : sizeOf (Json.obj ((k2, v2) :: fs2)) =
                    1 + sizeOf ((k2, v2) :: fs2) := by simp
                omega)
              p.2 le_rfl) m r hbt]

theorem parseVal_print (v : Json) :
    ∀ n r, (printJ v).length + 1 < n → SepOk r →
      parseVal n (printJ v ++ r) = some (v, r) :=
  parseVal_print_aux (sizeOf v) v le_rfl

/-- Round trip: parsing a serialized JSON value returns it unchanged. -/
theorem parse_stringify (v : Json) : Json.parse (Json.stringify v) = some v := by
  have hb : (printJ v).length + 1 < 2 * (printJ v).length + 2 := by omega
  have h := parseVal_print v (2 * (printJ v).length + 2) [] hb sepOk_nil
  rw [List.append_nil] at h
  unfold Json.parse
  rw [show (Json.stringify v).data = printJ v from rfl, h]
  rfl

theorem printNat_ne_word (n : Nat) (c0 : Char) (cs : List Char)
    (h0 : isDigitChar c0 = false) : printNat n ≠ c0 :: cs := by
  intro h
  have hd := printNat_all_digits n c0 (by rw [h]; simp)
  rw [hd] at h0
  exact Bool.noConfusion h0

theorem arrHasProp_code (len : Nat) : arrHasProp "code" len = false := by
  unfold arrHasProp
  rw [Bool.or_eq_false_iff]
  refine ⟨by decide, ?_⟩
  rw [List.any_eq_false]
  intro i _
  simp only [decide_eq_true_eq]
  intro h
  have hd := congrArg String.data h
  rw [show (String.mk (printNat i)).data = printNat i from rfl,
    show ("code" : String).data = ['c', 'o', 'd', 'e'] from rfl] at hd
  exact printNat_ne_word i 'c' _ (by decide) hd

/-! ### Claim theorems: Stream Bridge listener -/

theorem parse_ping_none : Json.parse "ping frame" = none := rfl

/-- Claim C4. A frame on the subscribed channel whose raw payload is the
literal "ping frame" makes the Bridge send exactly one "pong frame" reply
for that channel and emit nothing to the subscriber; the payload is not
parsed (indeed it is not parseable, yet no parse error is raised). -/
theorem claim4_ping_frame_pong_reply (c : String) :
    listener c ⟨c, "ping frame"⟩ = .pongSent ∧
    outcomeSends c (listener c ⟨c, "ping frame"⟩) = [(c, "pong frame")] ∧
    outcomeEmits (listener c ⟨c, "ping frame"⟩) = [] ∧
    Json.parse "ping frame" = none := by
  have hl : listener c ⟨c, "ping frame"⟩ = .pongSent := by
    simp [listener, listenBody]
  exact ⟨hl, by rw [hl]; rfl, by rw [hl]; rfl, rfl⟩

/-- Claim C5. A frame on the subscribed channel whose payload parses to an
object with both a `code` field and an `error` field terminates the stream
with the value of the `error` field, and no later frame is processed by
that subscription. -/
theorem claim5_error_envelope_terminates (c d : String) (rest : List Envelope)
    (fields : List (String × Json))
    (hparse : Json.parse d = some (.obj fields))
    (hcode : objHasKey "code" fields = true)
    (herr : objHasKey "error" fields = true) :
    runStream c (⟨c, d⟩ :: rest) =
      [.errored (.upstream (getPropJ "error" (.obj fields)))] := by
  have hd : d ≠ "ping frame" := by
    intro hd
    rw [hd, parse_ping_none] at hparse
    exact Option.noConfusion hparse
  have hbody : listenBody d = .ok (.upstreamErr (getPropJ "error" (.obj fields))) := by
    unfold listenBody
    rw [if_neg hd, hparse]
    simp [hasPropExc, hcode, herr]
  have hl : listener c ⟨c, d⟩ = .errored (.upstream (getPropJ "error" (.obj fields))) := by
    simp [listener, hbody]
  simp [runStream, hl]

/-- Witness for C5: the envelope payload with code 1 and error "bad" on the
subscribed channel "trade" errors the stream with "bad" and the following
frame is never processed. -/
theorem claim5_witness :
    runStream "trade"
      [⟨"trade", "\x7b\"code\":1,\"error\":\"bad\"\x7d"⟩, ⟨"trade", "2"⟩] =
      [.errored (.upstream (.str "bad"))] :=
  claim5_error_envelope_terminates "trade" "\x7b\"code\":1,\"error\":\"bad\"\x7d"
    [⟨"trade", "2"⟩] [("code", .num 1), ("error", .str "bad")] rfl rfl rfl

/-- Claim C6. A frame on the subscribed channel that is not the liveness
probe and whose payload fails to parse terminates the stream with an error
describing the parse failure; no later frame is processed by that
subscription (resuming needs a fresh subscription, i.e. a new stream run). -/
theorem claim6_parse_failure_terminates (c d : String) (rest : List Envelope)
    (hping : d ≠ "ping frame") (hparse : Json.parse d = none) :
    runStream c (⟨c, d⟩ :: rest) =
      [.errored (.processFailed ("Failed to process message: " ++ jsErrText .parseFail))] := by
  have hbody : listenBody d = .error .parseFail := by
    unfold listenBody
    rw [if_neg hping, hparse]
  have hl : listener c ⟨c, d⟩ =
      .errored (.processFailed (processMsg .parseFail)) := by
    simp [listener, hbody]
  simp [runStream, hl, processMsg]

/-- Witness for C6: the unparseable payload "not json" errors the stream and
the next frame is never processed. -/
theorem claim6_witness :
    runStream "trade" [⟨"trade", "not json"⟩, ⟨"trade", "1"⟩] =
      [.errored (.processFailed
        ("Failed to process message: " ++ jsErrText .parseFail))] :=
  claim6_parse_failure_terminates "trade" "not json" [⟨"trade", "1"⟩]
    (by decide) rfl

/-- Claim C9. A frame envelope whose channel differs from the subscription
channel leaves that subscription entirely unaffected, whatever its payload:
nothing is emitted, no reply is sent, no error is raised, and the stream
continues with the remaining frames. -/
theorem claim9_other_channel_unaffected (c : String) (env : Envelope)
    (rest : List Envelope) (h : env.channel ≠ c) :
    listener c env = .skipped ∧
    outcomeSends c (listener c env) = [] ∧
    outcomeEmits (listener c env) = [] ∧
    runStream c (env :: rest) = .skipped :: runStream c rest := by
  have hl : listener c env = .skipped := by
    simp [listener, h]
  exact ⟨hl, by rw [hl]; rfl, by rw [hl]; rfl, by simp [runStream, hl]⟩

/-- Witness for C9: a malformed error-envelope frame for channel "book" does
nothing to a "trade" subscription. -/
theorem claim9_witness :
    listener "trade" ⟨"book", "\x7b\"code\":bad"⟩ = .skipped ∧
    outcomeSends "trade" (listener "trade" ⟨"book", "\x7b\"code\":bad"⟩) = [] ∧
    outcomeEmits (listener "trade" ⟨"book", "\x7b\"code\":bad"⟩) = [] ∧
    runStream "trade" [⟨"book", "\x7b\"code\":bad"⟩] = [.skipped] :=
  claim9_other_channel_unaffected "trade" ⟨"book", "\x7b\"code\":bad"⟩ []
    (by decide)

/-- Claim C10. A frame on the subscribed channel whose payload is valid JSON
but parses to a JavaScript primitive (string, number, boolean or null — not
an object; parsed arrays are JavaScript objects, on which the membership
check evaluates without throwing) terminates the stream with a
message-processing error: the `in` check throws a TypeError, caught by the
same catch handler that reports parse failures, producing the same
"Failed to process message" error shape. -/
theorem claim10_primitive_payload_process_error (c d : String) (rest : List Envelope)
    (v : Json) (hparse : Json.parse d = some v) (hprim : v.isPrimitive = true) :
    runStream c (⟨c, d⟩ :: rest) =
      [.errored (.processFailed ("Failed to process message: " ++ jsErrText .inOpFail))] := by
  have hd : d ≠ "ping frame" := by
    intro hd
    rw [hd, parse_ping_none] at hparse
    exact Option.noConfusion hparse
  have hbody : listenBody d = .error .inOpFail := by
    unfold listenBody
    rw [if_neg hd, hparse]
    cases v with
    | null => rfl
    | bool b => rfl
    | num n => rfl
    | str s => rfl
    | arr xs => exact absurd hprim (by simp [Json.isPrimitive])
    | obj fs => exact absurd hprim (by simp [Json.isPrimitive])
  have hl : listener c ⟨c, d⟩ =
      .errored (.processFailed (processMsg .inOpFail)) := by
    simp [listener, hbody]
  simp [runStream, hl, processMsg]

/-- Witness for C10: the payload "5" is valid JSON, parses to the number 5,
and errors the stream with the message-processing error instead of emitting
5; the following frame is never processed. -/
theorem claim10_witness :
    runStream "trade" [⟨"trade", "5"⟩, ⟨"trade", "6"⟩] =
      [.errored (.processFailed
        ("Failed to process message: " ++ jsErrText .inOpFail))] :=
  claim10_primitive_payload_process_error "trade" "5" [⟨"trade", "6"⟩]
    (.num 5) rfl rfl

/-- Claim C7. The Manager forwards every raw frame text unconditionally and
unparsed as `{channel, data}`; for every JSON-representable structured
payload `p` (array, or object without an error-code field), a subscription
on the matching channel emits `p` unchanged: the serialized form of `p` is
never the liveness-probe token, and parsing it is a round-trip identity. -/
theorem claim7_roundtrip_emit (ms : ManagerState) (c t : String) (p : Json)
    (hstruct : p.isStructured = true) (hcode : jsonHasCode p = false) :
    step ms (.socketMessage c t) = (ms, [.posted c t]) ∧
    Json.parse (Json.stringify p) = some p ∧
    Json.stringify p ≠ "ping frame" ∧
    listener c ⟨c, Json.stringify p⟩ = .emitted p := by
  have hping : Json.stringify p ≠ "ping frame" := by
    intro h
    have hd := congrArg String.data h
    rw [show (Json.stringify p).data = printJ p from rfl,
      show ("ping frame" : String).data =
        ['p', 'i', 'n', 'g', ' ', 'f', 'r', 'a', 'm', 'e'] from rfl] at hd
    cases p with
    | arr xs =>
      rw [show printJ (Json.arr xs) = '[' :: (printElemsJ xs ++ [']']) from rfl,
        List.cons.injEq] at hd
      exact absurd hd.1 (by decide)
    | obj fs =>
      rw [show printJ (Json.obj fs) = '\x7b' :: (printFieldsJ fs ++ ['\x7d']) from rfl,
        List.cons.injEq] at hd
      exact absurd hd.1 (by decide)
    | null => exact absurd hstruct (by simp [Json.isStructured])
    | bool b => exact absurd hstruct (by simp [Json.isStructured])
    | num i => exact absurd hstruct (by simp [Json.isStructured])
    | str s2 => exact absurd hstruct (by simp [Json.isStructured])
  have hbody : listenBody (Json.stringify p) = .ok (.nextVal p) := by
    unfold listenBody
    rw [if_neg hping, parse_stringify p]
    cases p with
    | arr xs => simp [hasPropExc, arrHasProp_code]
    | obj fs =>
      have hc2 : objHasKey "code" fs = false := hcode
      simp [hasPropExc, hc2]
    | null => exact absurd hstruct (by simp [Json.isStructured])
    | bool b => exact absurd hstruct (by simp [Json.isStructured])
    | num i => exact absurd hstruct (by simp [Json.isStructured])
    | str s2 => exact absurd hstruct (by simp [Json.isStructured])
  refine ⟨rfl, parse_stringify p, hping, ?_⟩
  simp [listener, hbody]

/-- Witness for C7: the spec scenario payload, an object with fields
e = "trade" and p = "100.5", is emitted verbatim by a "trade" subscription,
and the manager forwards an arbitrary raw text unchanged. -/
theorem claim7_witness :
    step managerInit (.socketMessage "trade" "raw text") =
      (managerInit, [.posted "trade" "raw text"]) ∧
    listener "trade"
      ⟨"trade", Json.stringify (Json.obj [("e", .str "trade"), ("p", .str "100.5")])⟩ =
      .emitted (Json.obj [("e", .str "trade"), ("p", .str "100.5")]) :=
  ⟨(claim7_roundtrip_emit managerInit "trade" "raw text"
      (Json.obj [("e", .str "trade"), ("p", .str "100.5")]) rfl rfl).1,
   (claim7_roundtrip_emit managerInit "trade" "raw text"
      (Json.obj [("e", .str "trade"), ("p", .str "100.5")]) rfl rfl).2.2.2⟩

end WsWorker
